import Mathlib

/-
Verification of the Charmhigh pick-and-place file generator
(gen_charmhigh_pnp_file.py): a shallow embedding of the stack registry,
the placement-row parser, the layer/stack resolver and the
origin/orientation coordinate transform, with theorems about the
properties the specification states for them.

Coordinates and rotations are modelled as rational numbers; the Python
code computes with floats, but every operation involved (negation,
swapping, adding multiples of 90, subtracting 360) is exact, so the
rational model is faithful.
-/

namespace PnP

/-! ## Definitions

### Placement records

A placement record after resolution, as consumed by the coordinate
transform: the source carries tuples (part_num, part_name, pos, orient). -/

structure Part where
  num : String
  name : String
  pos : ℚ × ℚ
  orient : ℚ
deriving DecidableEq

/-! ### Rotation normalization

Source: `while orient > 180: orient -= 360`. -/

def normRot (o : ℚ) : ℚ :=
  if 180 < o then normRot (o - 360) else o
termination_by (⌈(o - 180) / 360⌉).toNat
decreasing_by
  rename_i h
  have h0 : (0 : ℚ) < o - 180 := by linarith
  have h1 : (0 : ℚ) < (o - 180) / 360 := by
    apply div_pos h0
    norm_num
  have h2 : (1 : ℤ) ≤ ⌈(o - 180) / 360⌉ := Int.ceil_pos.mpr h1
  have h3 : (o - 360 - 180) / 360 = (o - 180) / 360 - 1 := by ring
  rw [h3, Int.ceil_sub_one]
  omega

/-! ### Corner detection

Source: x_pos = all(part[2][0] >= 0. for part in parts), and likewise
x_neg, y_pos, y_neg, with the check
`if (not x_pos and not x_neg) or (not y_pos and not y_neg): raise`. -/

def xPosB (ps : List Part) : Bool := ps.all fun p => decide (0 ≤ p.pos.1)

def xNegB (ps : List Part) : Bool := ps.all fun p => decide (p.pos.1 ≤ 0)

def yPosB (ps : List Part) : Bool := ps.all fun p => decide (0 ≤ p.pos.2)

def yNegB (ps : List Part) : Bool := ps.all fun p => decide (p.pos.2 ≤ 0)

def cornerCheckB (ps : List Part) : Bool :=
  (xPosB ps || xNegB ps) && (yPosB ps || yNegB ps)

/-! ### The coordinate/rotation remap

Source, for each part:
  if x_pos: pos = (px, py) if y_pos else (-py, px); orient += 0 if y_pos else 90
  else:     pos = (py, -px) if y_pos else (-px, -py); orient += 270 if y_pos else 180
  if layer == 'bottom': pos = (pos[1], pos[0])
  while orient > 180: orient -= 360 -/

def remapPos : Bool → Bool → ℚ × ℚ → ℚ × ℚ
  | true, true, q => (q.1, q.2)
  | true, false, q => (-q.2, q.1)
  | false, true, q => (q.2, -q.1)
  | false, false, q => (-q.1, -q.2)

def cornerAdd : Bool → Bool → ℚ
  | true, true => 0
  | true, false => 90
  | false, true => 270
  | false, false => 180

def transformOne (xp yp bottom : Bool) (p : Part) : Part :=
  let q := remapPos xp yp p.pos
  Part.mk p.num p.name (if bottom then (q.2, q.1) else q)
    (normRot (p.orient + cornerAdd xp yp))

/-- The whole transform stage: none models the GeometryError raised when
the origin is not in a corner. -/
def transform (bottom : Bool) (ps : List Part) : Option (List Part) :=
  if cornerCheckB ps then
    some (ps.map (transformOne (xPosB ps) (yPosB ps) bottom))
  else none

/-! ### The corner as the specification names it -/

inductive Corner where
  | ll : Corner
  | ul : Corner
  | lr : Corner
  | ur : Corner
deriving DecidableEq

/-- The corner the source reports in verbose mode:
lower/upper from y_pos, left/right from x_pos. -/
def detectCorner (ps : List Part) : Option Corner :=
  if cornerCheckB ps then
    some (if xPosB ps then (if yPosB ps then .ll else .ul)
          else (if yPosB ps then .lr else .ur))
  else none

/-- The remap table exactly as the specification states it, keyed by the
corner. -/
def claimPos : Corner → ℚ × ℚ → ℚ × ℚ
  | .ll, q => (q.1, q.2)
  | .ul, q => (-q.2, q.1)
  | .lr, q => (q.2, -q.1)
  | .ur, q => (-q.1, -q.2)

/-- The rotation addition exactly as the specification states it. -/
def claimAdd : Corner → ℚ
  | .ll => 0
  | .ul => 90
  | .lr => 270
  | .ur => 180

/-- The per-part rewrite the specification claims: corner remap, rotation
addition, then the bottom-layer axis swap, with the source's
normalization applied to the rotation. -/
def claimTransformOne (c : Corner) (bottom : Bool) (p : Part) : Part :=
  let q := claimPos c p.pos
  Part.mk p.num p.name (if bottom then (q.2, q.1) else q)
    (normRot (p.orient + claimAdd c))

/-- The sign pattern the specification attributes to each detected
corner. -/
def cornerSigns (c : Corner) (ps : List Part) : Prop :=
  match c with
  | .ll => (∀ p ∈ ps, 0 ≤ p.pos.1) ∧ (∀ p ∈ ps, 0 ≤ p.pos.2)
  | .ul => (∀ p ∈ ps, 0 ≤ p.pos.1) ∧ (∀ p ∈ ps, p.pos.2 ≤ 0)
  | .lr => (∀ p ∈ ps, p.pos.1 ≤ 0) ∧ (∀ p ∈ ps, 0 ≤ p.pos.2)
  | .ur => (∀ p ∈ ps, p.pos.1 ≤ 0) ∧ (∀ p ∈ ps, p.pos.2 ≤ 0)

/-! ### Stack registry

One registry entry: [stack_num, feed, head, rotation] in the source; an
entry inserted by an override directive has no stack number yet (None). -/

structure Entry where
  slot : Option ℕ
  feed : ℕ
  head : ℕ
  rot : ℚ
deriving DecidableEq

/-- The ordered mapping part name to entry; the source uses an
OrderedDict, so keys are unique and insertion order is meaningful. -/
abbrev Registry := List (String × Entry)

/-- Splitting a character list at every separator, keeping empty fields:
the behaviour of Python's str.split with an explicit separator. -/
def splitOnChar (sep : Char) : List Char → List (List Char)
  | [] => [[]]
  | c :: rest =>
    match splitOnChar sep rest with
    | [] => [[]]
    | cur :: others =>
      if c = sep then [] :: cur :: others else (c :: cur) :: others

/-- Source: accept exactly the strings str(1) .. str(60). -/
def parse_stack_num (s : String) : Except String ℕ :=
  match ((List.range 60).map (fun n => n + 1)).find? (fun n => toString n == s) with
  | some n => Except.ok n
  | none => Except.error "stack number must within [1,60]"

/-- Source: accept exactly the strings 2, 4, 8, 12, 16, 24, converting
the accepted string to its numeric value. -/
def parse_feed (s : String) : Except String ℕ :=
  if s == "2" then Except.ok 2
  else if s == "4" then Except.ok 4
  else if s == "8" then Except.ok 8
  else if s == "12" then Except.ok 12
  else if s == "16" then Except.ok 16
  else if s == "24" then Except.ok 24
  else Except.error "feed must be one of (2, 4, 8, 12, 16, 24)"

/-- Source: accept exactly the strings 1 and 2. -/
def parse_head (s : String) : Except String ℕ :=
  if s == "1" then Except.ok 1
  else if s == "2" then Except.ok 2
  else Except.error "head must be either 1 or 2"

/-! ### Override directives

Source loop over machine_stack_options: split the directive on a colon,
require exactly two fields, insert [None, 4, 1, 0] for an unknown part,
then assign the parsed value to the indexed field.  The source passes the
whole directive string to the value parser (func(optarg)), not the value
field after the colon; the model reproduces that. -/

def updateEntry (reg : Registry) (key : String) (f : Entry → Entry) : Registry :=
  reg.map fun kv => if kv.1 = key then (kv.1, f kv.2) else kv

def applyOpt {α : Type} (parse : String → Except String α) (set : α → Entry → Entry)
    (optname : String) (reg : Registry) (optarg : String) : Except String Registry :=
  let fields := splitOnChar ':' optarg.data
  if fields.length ≠ 2 then
    Except.error ("option --" ++ optname ++ " " ++ optarg ++ ": invalid syntax")
  else
    let key := String.mk (fields.headD [])
    let reg1 := if (reg.lookup key).isSome then reg
                else reg ++ [(key, Entry.mk none 4 1 0)]
    match parse optarg with
    | Except.error e =>
        Except.error ("option --" ++ optname ++ " " ++ optarg ++ ": " ++ e)
    | Except.ok v => Except.ok (updateEntry reg1 key (set v))

def applyOptList {α : Type} (parse : String → Except String α)
    (set : α → Entry → Entry) (optname : String) :
    Registry → List String → Except String Registry
  | reg, [] => Except.ok reg
  | reg, a :: rest =>
    match applyOpt parse set optname reg a with
    | Except.error e => Except.error e
    | Except.ok reg1 => applyOptList parse set optname reg1 rest

def setSlot (v : ℕ) (e : Entry) : Entry := Entry.mk (some v) e.feed e.head e.rot

def setFeed (v : ℕ) (e : Entry) : Entry := Entry.mk e.slot v e.head e.rot

def setHead (v : ℕ) (e : Entry) : Entry := Entry.mk e.slot e.feed v e.rot

def setRot (v : ℚ) (e : Entry) : Entry := Entry.mk e.slot e.feed e.head v

/-- The four option groups applied in source order: stack, feed, head,
rotation.  The rotation value parser (Python float()) is a parameter;
none of the theorems depend on its behaviour. -/
def applyOverrides (parseRot : String → Except String ℚ)
    (stackArgs feedArgs headArgs rotArgs : List String) (reg : Registry) :
    Except String Registry :=
  match applyOptList parse_stack_num setSlot "stack" reg stackArgs with
  | Except.error e => Except.error e
  | Except.ok r1 =>
    match applyOptList parse_feed setFeed "feed" r1 feedArgs with
    | Except.error e => Except.error e
    | Except.ok r2 =>
      match applyOptList parse_head setHead "head" r2 headArgs with
      | Except.error e => Except.error e
      | Except.ok r3 => applyOptList parseRot setRot "rotation" r3 rotArgs

/-! ### Stack-file lines

Source:
  if line.strip()[0] != '#':
      cols = [col.strip() for col in line.strip().split(',')]
      if len(cols) < 2: raise ValueError(... to few columns)
      stack_num = parse_stack_num(cols[1])
      feed = parse_feed(cols[2]) if len(cols) >= 3 else 4
      head = parse_head(cols[3]) if len(cols) >= 4 else 1
      rotation = parse_rotation(cols[4]) if len(cols) >= 5 else 0
      machine_stack[cols[0]] = [stack_num, feed, head, rotation]
Indexing character 0 of an empty stripped line raises IndexError. -/

def pyWhitespace (c : Char) : Bool :=
  c == ' ' || c == '\t' || c == '\n' || c == '\r' || c == '\x0b' || c == '\x0c'

def pyStripL (l : List Char) : List Char :=
  ((l.dropWhile pyWhitespace).reverse.dropWhile pyWhitespace).reverse

def pyStrip (s : String) : String := String.mk (pyStripL s.data)

inductive StackLineResult where
  | indexError : StackLineResult
  | skipped : StackLineResult
  | valueError (msg : String) : StackLineResult
  | entry (key : String) (e : Entry) : StackLineResult
deriving DecidableEq

def stackLine (parseRot : String → Except String ℚ) (line : String) :
    StackLineResult :=
  match (pyStrip line).data with
  | [] => .indexError
  | c :: _ =>
    if c = '#' then .skipped
    else
      let cols := (splitOnChar ',' (pyStrip line).data).map fun l => String.mk (pyStripL l)
      if cols.length < 2 then .valueError "to few columns"
      else
        match parse_stack_num (cols.getD 1 "") with
        | Except.error e => .valueError e
        | Except.ok slot =>
          match (if 3 ≤ cols.length then parse_feed (cols.getD 2 "") else Except.ok 4) with
          | Except.error e => .valueError e
          | Except.ok feed =>
            match (if 4 ≤ cols.length then parse_head (cols.getD 3 "") else Except.ok 1) with
            | Except.error e => .valueError e
            | Except.ok head =>
              match (if 5 ≤ cols.length then parseRot (cols.getD 4 "") else Except.ok 0) with
              | Except.error e => .valueError e
              | Except.ok rot => .entry (cols.getD 0 "") (Entry.mk (some slot) feed head rot)

/-! ### Layer and stack resolution

Source lines 156-174: validate the layer cell, auto-detect the active
layer from the first row when none was requested, drop rows of the other
layer and DNP parts, join the rest against the registry (warning once per
distinct missing part name), and finally sort by registry insertion
index. -/

structure Rec where
  num : String
  name : String
  pos : ℚ × ℚ
  orient : ℚ
  layer : String
deriving DecidableEq

/-- A resolved placement: the source tuple
(part_num, part_name, pos, orient + rotation, idx). -/
structure RPart where
  num : String
  name : String
  pos : ℚ × ℚ
  orient : ℚ
  idx : ℕ
deriving DecidableEq

/-- The registry insertion index of a part name:
list(machine_stack.keys()).index(part_name). -/
def regIdx (reg : Registry) (name : String) : ℕ :=
  reg.findIdx fun kv => kv.1 == name

/-- Source: part_name.startswith('DNP'). -/
def startsWithDNP (s : String) : Bool :=
  match s.data with
  | 'D' :: 'N' :: 'P' :: _ => true
  | _ => false

/-- The mutable state of the source's CSV loop: the active layer (None
until auto-detected), the resolved parts, and the missing-part names
already warned about. -/
structure RState where
  layer : Option String
  parts : List RPart
  missing : List String
deriving DecidableEq

/-- One loop iteration after the layer cell validated. -/
def resolveStepOk (reg : Registry) (st : RState) (r : Rec) : RState :=
  let lay := st.layer.getD r.layer
  if r.layer = lay ∧ startsWithDNP r.name = false then
    match reg.lookup r.name with
    | some e =>
      RState.mk (some lay)
        (st.parts ++ [RPart.mk r.num r.name r.pos (r.orient + e.rot) (regIdx reg r.name)])
        st.missing
    | none =>
      if r.name ∈ st.missing then RState.mk (some lay) st.parts st.missing
      else RState.mk (some lay) st.parts (st.missing ++ [r.name])
  else RState.mk (some lay) st.parts st.missing

/-- One loop iteration; error models the ValueError for a layer cell that
is neither top nor bottom. -/
def resolveStep (reg : Registry) (st : RState) (r : Rec) : Except String RState :=
  if r.layer = "top" ∨ r.layer = "bottom" then Except.ok (resolveStepOk reg st r)
  else Except.error "layer (column 7) must be either top or bottom"

def resolveList (reg : Registry) : List Rec → RState → Except String RState
  | [], st => Except.ok st
  | r :: rs, st =>
    match resolveStep reg st r with
    | Except.error e => Except.error e
    | Except.ok st1 => resolveList reg rs st1

/-- Source: parts.sort(key=lambda tup: tup[4]); Python's sort is stable,
as is mergeSort. -/
def sortResolved (l : List RPart) : List RPart :=
  l.mergeSort fun a b => decide (a.idx ≤ b.idx)

/-- A row that reaches the registry lookup for part name p with active
layer l: right layer and not a do-not-place part. -/
abbrev eligRow (p l : String) (r : Rec) : Prop :=
  r.name = p ∧ r.layer = l ∧ startsWithDNP r.name = false

/-! ### Part-number validation

Source: re.match('^([A-Z]+)([0-9]+)$', part_num). -/

def isUpperAZ (c : Char) : Bool := decide ('A' ≤ c) && decide (c ≤ 'Z')

def isDigit09 (c : Char) : Bool := decide ('0' ≤ c) && decide (c ≤ '9')

def isAlphaAZaz (c : Char) : Bool :=
  (decide ('A' ≤ c) && decide (c ≤ 'Z')) || (decide ('a' ≤ c) && decide (c ≤ 'z'))

/-- The language of the source regex: a non-empty run of uppercase
letters followed by a non-empty run of digits, consuming the whole
string. -/
def matchesUpperNum (s : String) : Prop :=
  ∃ a b : List Char, s.data = a ++ b ∧ a ≠ [] ∧ b ≠ [] ∧
    (∀ c ∈ a, isUpperAZ c = true) ∧ (∀ c ∈ b, isDigit09 c = true)

/-- The language the claim states instead: an [A-Za-z]+ prefix (lowercase
permitted) followed by a digit run. -/
def matchesAlphaNum (s : String) : Prop :=
  ∃ a b : List Char, s.data = a ++ b ∧ a ≠ [] ∧ b ≠ [] ∧
    (∀ c ∈ a, isAlphaAZaz c = true) ∧ (∀ c ∈ b, isDigit09 c = true)

/-- Executable matcher for the source regex: since the two character
classes are disjoint, greedy matching is exact. -/
def partNumMatch (s : String) : Bool :=
  let pre := s.data.takeWhile isUpperAZ
  let suf := s.data.dropWhile isUpperAZ
  (!pre.isEmpty) && (!suf.isEmpty) && suf.all isDigit09

/-! ## Theorems -/

lemma rotMeasure_lt (o : ℚ) (h : 180 < o) :
    (⌈(o - 360 - 180) / 360⌉).toNat < (⌈(o - 180) / 360⌉).toNat := by
  have h0 : (0 : ℚ) < o - 180 := by linarith
  have h1 : (0 : ℚ) < (o - 180) / 360 := by
    apply div_pos h0
    norm_num
  have h2 : (1 : ℤ) ≤ ⌈(o - 180) / 360⌉ := Int.ceil_pos.mpr h1
  have h3 : (o - 360 - 180) / 360 = (o - 180) / 360 - 1 := by ring
  rw [h3, Int.ceil_sub_one]
  omega

lemma normRot_of_le (o : ℚ) (h : o ≤ 180) : normRot o = o := by
  rw [normRot.eq_def]
  simp [not_lt.mpr h]

lemma normRot_step (o : ℚ) (h : 180 < o) : normRot o = normRot (o - 360) := by
  rw [normRot.eq_def]
  simp [h]

lemma normRot_le_180 (o : ℚ) : normRot o ≤ 180 := by
  generalize hn : (⌈(o - 180) / 360⌉).toNat = n
  induction n using Nat.strong_induction_on generalizing o with
  | _ n ih =>
    by_cases h : 180 < o
    · rw [normRot_step o h]
      exact ih _ (hn ▸ rotMeasure_lt o h) (o - 360) rfl
    · rw [normRot_of_le o (not_lt.mp h)]
      exact not_lt.mp h

lemma normRot_gt_neg180 (o : ℚ) (h : -180 < o) : -180 < normRot o := by
  generalize hn : (⌈(o - 180) / 360⌉).toNat = n
  induction n using Nat.strong_induction_on generalizing o with
  | _ n ih =>
    by_cases hgt : 180 < o
    · rw [normRot_step o hgt]
      exact ih _ (hn ▸ rotMeasure_lt o hgt) (o - 360) (by linarith) rfl
    · rw [normRot_of_le o (not_lt.mp hgt)]
      exact h

lemma xPosB_iff (ps : List Part) : xPosB ps = true ↔ ∀ p ∈ ps, 0 ≤ p.pos.1 := by
  simp [xPosB, List.all_eq_true]

lemma xNegB_iff (ps : List Part) : xNegB ps = true ↔ ∀ p ∈ ps, p.pos.1 ≤ 0 := by
  simp [xNegB, List.all_eq_true]

lemma yPosB_iff (ps : List Part) : yPosB ps = true ↔ ∀ p ∈ ps, 0 ≤ p.pos.2 := by
  simp [yPosB, List.all_eq_true]

lemma yNegB_iff (ps : List Part) : yNegB ps = true ↔ ∀ p ∈ ps, p.pos.2 ≤ 0 := by
  simp [yNegB, List.all_eq_true]

lemma transform_eq_none_iff (bottom : Bool) (ps : List Part) :
    transform bottom ps = none ↔ cornerCheckB ps = false := by
  unfold transform
  by_cases h : cornerCheckB ps = true
  · simp [h]
  · simp [h]

lemma transform_eq_some (bottom : Bool) (ps : List Part)
    (h : cornerCheckB ps = true) :
    transform bottom ps = some (ps.map (transformOne (xPosB ps) (yPosB ps) bottom)) := by
  unfold transform
  simp [h]

lemma cornerCheckB_iff (ps : List Part) :
    cornerCheckB ps = true ↔
      ((∀ p ∈ ps, 0 ≤ p.pos.1) ∨ (∀ p ∈ ps, p.pos.1 ≤ 0)) ∧
      ((∀ p ∈ ps, 0 ≤ p.pos.2) ∨ (∀ p ∈ ps, p.pos.2 ≤ 0)) := by
  rw [cornerCheckB, Bool.and_eq_true, Bool.or_eq_true, Bool.or_eq_true,
    xPosB_iff, xNegB_iff, yPosB_iff, yNegB_iff]

/-- Shared evaluation lemma: on a list whose coordinates are all
non-negative and whose rotations are all at most 180, the transform for
the top layer is the identity (wrapped in some). -/
lemma transform_id_of_canonical (ps : List Part)
    (h1 : ∀ p ∈ ps, 0 ≤ p.pos.1 ∧ 0 ≤ p.pos.2)
    (h2 : ∀ p ∈ ps, p.orient ≤ 180) :
    transform false ps = some ps := by
  have hx : xPosB ps = true := (xPosB_iff ps).mpr fun p hp => (h1 p hp).1
  have hy : yPosB ps = true := (yPosB_iff ps).mpr fun p hp => (h1 p hp).2
  have hc : cornerCheckB ps = true := by
    rw [cornerCheckB, hx, hy]
    rfl
  rw [transform_eq_some false ps hc, hx, hy]
  have hids : ∀ p ∈ ps, transformOne true true false p = id p := by
    intro p hp
    have ho := h2 p hp
    cases p with
    | mk n nm q o =>
      show Part.mk n nm (q.1, q.2) (normRot (o + cornerAdd true true)) = Part.mk n nm q o
      rw [Prod.mk.eta]
      rw [show cornerAdd true true = 0 from rfl, add_zero, normRot_of_le o ho]
  rw [List.map_congr_left hids, List.map_id]

/-- Claim C1: for every resolved placement list that passes corner
detection, the transform rewrites each position by the remap keyed to the
detected origin corner — lower-left: (x, y) with 0 added to rotation;
upper-left: (-y, x) with 90; lower-right: (y, -x) with 270; upper-right:
(-x, -y) with 180 — and when the layer is bottom the transformed x and y
are then swapped; the detected corner satisfies the claimed sign
pattern. -/
theorem transform_remap_table (ps : List Part) (b : Bool) (c : Corner)
    (h : detectCorner ps = some c) :
    cornerSigns c ps ∧ transform b ps = some (ps.map (claimTransformOne c b)) := by
  unfold detectCorner at h
  by_cases hc : cornerCheckB ps = true
  · rw [if_pos hc, Option.some_inj] at h
    have hc2 := hc
    rw [cornerCheckB, Bool.and_eq_true, Bool.or_eq_true, Bool.or_eq_true] at hc2
    obtain ⟨hcx, hcy⟩ := hc2
    cases hxp : xPosB ps <;> cases hyp : yPosB ps <;> rw [hxp, hyp] at h <;>
      simp at h <;> subst h
    · -- xPos = false, yPos = false: upper-right
      have hxn : ∀ p ∈ ps, p.pos.1 ≤ 0 :=
        (xNegB_iff ps).mp (hcx.resolve_left (by rw [hxp]; exact Bool.false_ne_true))
      have hyn : ∀ p ∈ ps, p.pos.2 ≤ 0 :=
        (yNegB_iff ps).mp (hcy.resolve_left (by rw [hyp]; exact Bool.false_ne_true))
      refine ⟨⟨hxn, hyn⟩, ?_⟩
      rw [transform_eq_some b ps hc, hxp, hyp]
      rfl
    · -- xPos = false, yPos = true: lower-right
      have hxn : ∀ p ∈ ps, p.pos.1 ≤ 0 :=
        (xNegB_iff ps).mp (hcx.resolve_left (by rw [hxp]; exact Bool.false_ne_true))
      refine ⟨⟨hxn, (yPosB_iff ps).mp hyp⟩, ?_⟩
      rw [transform_eq_some b ps hc, hxp, hyp]
      rfl
    · -- xPos = true, yPos = false: upper-left
      have hyn : ∀ p ∈ ps, p.pos.2 ≤ 0 :=
        (yNegB_iff ps).mp (hcy.resolve_left (by rw [hyp]; exact Bool.false_ne_true))
      refine ⟨⟨(xPosB_iff ps).mp hxp, hyn⟩, ?_⟩
      rw [transform_eq_some b ps hc, hxp, hyp]
      rfl
    · -- xPos = true, yPos = true: lower-left
      refine ⟨⟨(xPosB_iff ps).mp hxp, (yPosB_iff ps).mp hyp⟩, ?_⟩
      rw [transform_eq_some b ps hc, hxp, hyp]
      rfl
  · rw [if_neg hc] at h
    exact absurd h (Option.some_ne_none c).symm

/-- Witness for C1: a concrete two-part list with the origin detected in
the upper-left corner (all x at least 0, all y at most 0). -/
theorem transform_remap_table_witness :
    cornerSigns Corner.ul [Part.mk "C1" "10uF" (3, -4) 0, Part.mk "R2" "1kOhm" (1, -2) 90] ∧
    transform false [Part.mk "C1" "10uF" (3, -4) 0, Part.mk "R2" "1kOhm" (1, -2) 90] =
      some ([Part.mk "C1" "10uF" (3, -4) 0, Part.mk "R2" "1kOhm" (1, -2) 90].map
        (claimTransformOne Corner.ul false)) :=
  transform_remap_table _ false Corner.ul (by decide)

/-- Claim C2: every placement produced by the transform (including after
the bottom-layer axis swap) has x at least 0 and y at least 0; the
postcondition assertion never fires. -/
theorem transform_nonneg (ps : List Part) (b : Bool) (out : List Part)
    (h : transform b ps = some out) :
    ∀ t ∈ out, 0 ≤ t.pos.1 ∧ 0 ≤ t.pos.2 := by
  unfold transform at h
  split at h
  case isFalse => exact absurd h (Option.noConfusion)
  case isTrue hc =>
    rw [Option.some_inj] at h
    subst h
    intro t ht
    obtain ⟨p, hp, rfl⟩ := List.mem_map.mp ht
    rw [cornerCheckB, Bool.and_eq_true, Bool.or_eq_true, Bool.or_eq_true] at hc
    obtain ⟨hcx, hcy⟩ := hc
    cases hxp : xPosB ps <;> cases hyp : yPosB ps
    · have hxn := (xNegB_iff ps).mp (hcx.resolve_left (by rw [hxp]; exact Bool.false_ne_true)) p hp
      have hyn := (yNegB_iff ps).mp (hcy.resolve_left (by rw [hyp]; exact Bool.false_ne_true)) p hp
      cases b <;> simp [transformOne, remapPos] <;>
        constructor <;> linarith
    · have hxn := (xNegB_iff ps).mp (hcx.resolve_left (by rw [hxp]; exact Bool.false_ne_true)) p hp
      have hyp2 := (yPosB_iff ps).mp hyp p hp
      cases b <;> simp [transformOne, remapPos] <;>
        constructor <;> linarith
    · have hxp2 := (xPosB_iff ps).mp hxp p hp
      have hyn := (yNegB_iff ps).mp (hcy.resolve_left (by rw [hyp]; exact Bool.false_ne_true)) p hp
      cases b <;> simp [transformOne, remapPos] <;>
        constructor <;> linarith
    · have hxp2 := (xPosB_iff ps).mp hxp p hp
      have hyp2 := (yPosB_iff ps).mp hyp p hp
      cases b <;> simp [transformOne, remapPos] <;>
        constructor <;> linarith

/-- Witness for C2: the transform of a concrete upper-left-origin list on
the bottom layer, with both output coordinates non-negative. -/
theorem transform_nonneg_witness :
    ∃ out, transform true [Part.mk "C1" "10uF" (3, -4) 10] = some out ∧
      ∀ t ∈ out, 0 ≤ t.pos.1 ∧ 0 ≤ t.pos.2 := by
  have hval : transform true [Part.mk "C1" "10uF" (3, -4) 10] =
      some [Part.mk "C1" "10uF" (3, 4) 100] := by
    rw [transform_eq_some true _ (by decide)]
    rw [show xPosB [Part.mk "C1" "10uF" (3, -4) 10] = true from by decide]
    rw [show yPosB [Part.mk "C1" "10uF" (3, -4) 10] = false from by decide]
    rw [List.map_cons, List.map_nil]
    show some [Part.mk "C1" "10uF" (3, 4) (normRot (10 + cornerAdd true false))] = _
    rw [show cornerAdd true false = 90 from rfl,
      show (10 : ℚ) + 90 = 100 from by norm_num,
      normRot_of_le 100 (by norm_num)]
  exact ⟨[Part.mk "C1" "10uF" (3, 4) 100], hval,
    transform_nonneg [Part.mk "C1" "10uF" (3, -4) 10] true _ hval⟩

/-- Claim C4 (amended): every emitted rotation is at most 180 degrees, and
it lies in (-180, 180] whenever the rotation entering normalization (the
resolved rotation plus the corner-keyed addition) exceeds -180 degrees.
The source's loop `while orient > 180: orient -= 360` never raises a
rotation, so a resolved rotation at or below -180 passes through
unchanged. -/
theorem rotation_emitted_bound (ps : List Part) (b : Bool) (out : List Part)
    (h : transform b ps = some out) :
    (∀ t ∈ out, t.orient ≤ 180) ∧
    ((∀ p ∈ ps, -180 < p.orient + cornerAdd (xPosB ps) (yPosB ps)) →
      ∀ t ∈ out, -180 < t.orient ∧ t.orient ≤ 180) := by
  unfold transform at h
  split at h
  case isFalse => exact absurd h (Option.noConfusion)
  case isTrue hc =>
    rw [Option.some_inj] at h
    subst h
    constructor
    · intro t ht
      obtain ⟨p, hp, rfl⟩ := List.mem_map.mp ht
      exact normRot_le_180 _
    · intro hpre t ht
      obtain ⟨p, hp, rfl⟩ := List.mem_map.mp ht
      exact ⟨normRot_gt_neg180 _ (hpre p hp), normRot_le_180 _⟩

/-- Witness for C4 (amended): a concrete lower-left list whose
pre-normalization rotations exceed -180, with all emitted rotations in
(-180, 180]. -/
theorem rotation_emitted_bound_witness :
    ∃ out, transform false [Part.mk "C1" "10uF" (1, 2) 350] = some out ∧
      ∀ t ∈ out, -180 < t.orient ∧ t.orient ≤ 180 := by
  have hval : transform false [Part.mk "C1" "10uF" (1, 2) 350] =
      some [Part.mk "C1" "10uF" (1, 2) (-10)] := by
    rw [transform_eq_some false _ (by decide)]
    rw [show xPosB [Part.mk "C1" "10uF" (1, 2) 350] = true from by decide]
    rw [show yPosB [Part.mk "C1" "10uF" (1, 2) 350] = true from by decide]
    rw [List.map_cons, List.map_nil]
    show some [Part.mk "C1" "10uF" (1, 2) (normRot (350 + cornerAdd true true))] = _
    rw [show cornerAdd true true = 0 from rfl, add_zero,
      normRot_step 350 (by norm_num), show (350 : ℚ) - 360 = -10 from by norm_num,
      normRot_of_le (-10) (by norm_num)]
  refine ⟨[Part.mk "C1" "10uF" (1, 2) (-10)], hval,
    (rotation_emitted_bound [Part.mk "C1" "10uF" (1, 2) 350] false _ hval).2 ?_⟩
  intro p hp
  rw [show xPosB [Part.mk "C1" "10uF" (1, 2) 350] = true from by decide,
    show yPosB [Part.mk "C1" "10uF" (1, 2) 350] = true from by decide]
  simp at hp
  subst hp
  show (-180 : ℚ) < 350 + cornerAdd true true
  rw [show cornerAdd true true = 0 from rfl]
  norm_num

/-- Counterexample to C4 as stated: a resolved placement with input
rotation -500 in the lower-left frame is emitted with rotation -500,
which is not in (-180, 180]: the normalization loop only subtracts. -/
theorem rotation_emitted_counterexample :
    transform false [Part.mk "R1" "10kOhm" (1, 1) (-500)] =
      some [Part.mk "R1" "10kOhm" (1, 1) (-500)] ∧
    ¬ (-180 < (-500 : ℚ) ∧ (-500 : ℚ) ≤ 180) := by
  constructor
  · rw [transform_eq_some false _ (by decide)]
    rw [show xPosB [Part.mk "R1" "10kOhm" (1, 1) (-500)] = true from by decide]
    rw [show yPosB [Part.mk "R1" "10kOhm" (1, 1) (-500)] = true from by decide]
    rw [List.map_cons, List.map_nil]
    show some [Part.mk "R1" "10kOhm" (1, 1) (normRot (-500 + cornerAdd true true))] = _
    rw [show cornerAdd true true = 0 from rfl, add_zero,
      normRot_of_le (-500) (by norm_num)]
  · intro hcon
    linarith [hcon.1]

/-- Claim C5 (amended): corner detection fails — the transform raises —
exactly when it is not the case that at least one of (all x at least 0,
all x at most 0) holds and at least one of (all y at least 0, all y at
most 0) holds; whenever it does not fail, the transform produces a
result. The source tests `(not x_pos and not x_neg) or (not y_pos and
not y_neg)`, so a coordinate column that is entirely zero satisfies both
sides and is accepted, not rejected. -/
theorem corner_detection_fails_iff (ps : List Part) (b : Bool) :
    transform b ps = none ↔
      ¬ (((∀ p ∈ ps, 0 ≤ p.pos.1) ∨ (∀ p ∈ ps, p.pos.1 ≤ 0)) ∧
         ((∀ p ∈ ps, 0 ≤ p.pos.2) ∨ (∀ p ∈ ps, p.pos.2 ≤ 0))) := by
  rw [transform_eq_none_iff, ← cornerCheckB_iff]
  cases cornerCheckB ps <;> simp

/-- Counterexample to C5 as stated: with a single part at (0, 5) both
"all x at least 0" and "all x at most 0" hold, so the claimed
"exactly one" precondition is violated, yet the code accepts the list
and the transform succeeds. -/
theorem corner_detection_counterexample :
    (∀ p ∈ [Part.mk "C1" "10uF" (0, 5) 0], 0 ≤ p.pos.1) ∧
    (∀ p ∈ [Part.mk "C1" "10uF" (0, 5) 0], p.pos.1 ≤ 0) ∧
    transform false [Part.mk "C1" "10uF" (0, 5) 0] ≠ none := by
  refine ⟨by decide, by decide, ?_⟩
  rw [Ne, transform_eq_none_iff]
  decide

/-- Claim C9 (amended): for a placement list already in the canonical
frame — all coordinates non-negative, so the origin is detected in the
lower-left corner — whose rotations are fixed points of the
normalization (at most 180 degrees), running the transform with the top
layer active returns the list unchanged, exactly. For the bottom layer
the claim fails because the axis swap is applied again. -/
theorem transform_idempotent_top (ps : List Part)
    (h1 : ∀ p ∈ ps, 0 ≤ p.pos.1 ∧ 0 ≤ p.pos.2)
    (h2 : ∀ p ∈ ps, p.orient ≤ 180) :
    transform false ps = some ps :=
  transform_id_of_canonical ps h1 h2

/-- Witness for C9 (amended): a concrete canonical two-part list is
returned unchanged by the top-layer transform. -/
theorem transform_idempotent_top_witness :
    transform false [Part.mk "C1" "10uF" (1, 2) 90, Part.mk "R2" "1kOhm" (3, 0) (-45)] =
      some [Part.mk "C1" "10uF" (1, 2) 90, Part.mk "R2" "1kOhm" (3, 0) (-45)] :=
  transform_idempotent_top _ (by decide) (by norm_num)

/-- Counterexample to C9 as stated: a canonical single-part list at
(1, 2) with rotation 0, transformed with the bottom layer active, comes
back with its coordinates swapped to (2, 1), not unchanged. -/
theorem transform_idempotent_counterexample :
    (0 ≤ (Part.mk "C1" "10uF" ((1 : ℚ), (2 : ℚ)) 0).pos.1 ∧
     0 ≤ (Part.mk "C1" "10uF" ((1 : ℚ), (2 : ℚ)) 0).pos.2 ∧
     (Part.mk "C1" "10uF" ((1 : ℚ), (2 : ℚ)) 0).orient ≤ 180) ∧
    transform true [Part.mk "C1" "10uF" (1, 2) 0] ≠
      some [Part.mk "C1" "10uF" (1, 2) 0] := by
  refine ⟨by decide, ?_⟩
  have hval : transform true [Part.mk "C1" "10uF" (1, 2) 0] =
      some [Part.mk "C1" "10uF" (2, 1) 0] := by
    rw [transform_eq_some true _ (by decide)]
    rw [show xPosB [Part.mk "C1" "10uF" (1, 2) 0] = true from by decide]
    rw [show yPosB [Part.mk "C1" "10uF" (1, 2) 0] = true from by decide]
    rw [List.map_cons, List.map_nil]
    show some [Part.mk "C1" "10uF" (2, 1) (normRot (0 + cornerAdd true true))] = _
    rw [show cornerAdd true true = 0 from rfl, add_zero, normRot_of_le 0 (by norm_num)]
  rw [hval]
  decide

/-- The source hands the whole directive to the value parser, so the
value field alone would parse while the passed string never does. -/
lemma parse_stack_num_value_ok : parse_stack_num "5" = Except.ok 5 := by rfl

lemma parse_stack_num_directive_fails :
    parse_stack_num "C1:5" = Except.error "stack number must within [1,60]" := by rfl

/-- Claim C3 (observed code defect): applying the override directives
stack=C1:5 and feed=C1:8 to an empty registry does not succeed with the
entry (slot 5, feed 8, head 1, rotation 0): the source passes the entire
'PART:VALUE' directive to the value parser (func(optarg) instead of
func applied to the value field), so the very first directive is rejected with the
stack-number domain error, contradicting the documented behaviour of the
options. -/
theorem override_directives_reject :
    applyOverrides (fun _ => Except.ok 0) ["C1:5"] ["C1:8"] [] [] [] =
      Except.error "option --stack C1:5: stack number must within [1,60]" := by
  rfl

/-- Claim C10: during stack-file parsing, a line is skipped exactly when
the first character of the stripped line is the comment marker, and a
line that strips to the empty string produces an IndexError (an index
into the empty string), not a skip and not a ValueError. -/
theorem stackfile_blank_line_crashes (parseRot : String → Except String ℚ)
    (line : String) :
    (stackLine parseRot line = StackLineResult.skipped ↔
      (pyStrip line).data.head? = some '#') ∧
    ((pyStrip line).data = [] → stackLine parseRot line = StackLineResult.indexError) := by
  have hnil : (pyStrip line).data = [] →
      stackLine parseRot line = StackLineResult.indexError := by
    intro h
    unfold stackLine
    rw [h]
  refine ⟨?_, hnil⟩
  cases hl : (pyStrip line).data with
  | nil =>
    rw [hnil hl]
    simp
  | cons c cs =>
    by_cases hc : c = '#'
    · subst hc
      constructor
      · intro _
        rfl
      · intro _
        unfold stackLine
        rw [hl]
        rfl
    · constructor
      · intro hcontra
        exfalso
        unfold stackLine at hcontra
        rw [hl] at hcontra
        simp only [hc, if_false] at hcontra
        split at hcontra
        · exact StackLineResult.noConfusion hcontra
        · split at hcontra
          · exact StackLineResult.noConfusion hcontra
          · split at hcontra
            · exact StackLineResult.noConfusion hcontra
            · split at hcontra
              · exact StackLineResult.noConfusion hcontra
              · split at hcontra
                · exact StackLineResult.noConfusion hcontra
                · exact StackLineResult.noConfusion hcontra
      · intro hcontra
        simp at hcontra
        exact absurd hcontra hc

/-- Witness for C10: a whitespace-only line crashes with IndexError, and
a line whose first non-whitespace character is the marker is skipped. -/
theorem stackfile_blank_line_crashes_witness :
    stackLine (fun _ => Except.ok 0) "  " = StackLineResult.indexError ∧
    stackLine (fun _ => Except.ok 0) "  # note" = StackLineResult.skipped := by
  constructor
  · exact (stackfile_blank_line_crashes (fun _ => Except.ok 0) "  ").2 (by decide)
  · exact (stackfile_blank_line_crashes (fun _ => Except.ok 0) "  # note").1.mpr (by decide)

lemma digit_not_upper (c : Char) (h : isDigit09 c = true) : isUpperAZ c = false := by
  rw [isDigit09, Bool.and_eq_true, decide_eq_true_eq, decide_eq_true_eq] at h
  rw [isUpperAZ]
  have hA : ¬ ('A' ≤ c) := by
    intro hA
    have h9A : ('9' : Char) < 'A' := by decide
    exact absurd (lt_of_lt_of_le h9A hA) (not_lt.mpr h.2)
  rw [decide_eq_false hA, Bool.false_and]

/-- Claim C8 (amended): the parser accepts a part_number cell exactly
when it is a non-empty run of uppercase letters followed by a non-empty
run of digits, consuming the whole cell — the source pattern is
[A-Z]+[0-9]+ anchored on both sides; lowercase letters in the prefix are
rejected, not permitted. -/
theorem part_number_accept_iff (s : String) :
    partNumMatch s = true ↔ matchesUpperNum s := by
  have hdef : partNumMatch s =
      (((!(s.data.takeWhile isUpperAZ).isEmpty) &&
        (!(s.data.dropWhile isUpperAZ).isEmpty)) &&
       (s.data.dropWhile isUpperAZ).all isDigit09) := rfl
  rw [hdef, Bool.and_eq_true, Bool.and_eq_true]
  constructor
  · rintro ⟨⟨h1, h2⟩, h3⟩
    refine ⟨s.data.takeWhile isUpperAZ, s.data.dropWhile isUpperAZ,
      (List.takeWhile_append_dropWhile isUpperAZ s.data).symm, ?_, ?_,
      fun c hc => List.mem_takeWhile_imp hc, List.all_eq_true.mp h3⟩
    · intro hnil
      rw [hnil] at h1
      simp at h1
    · intro hnil
      rw [hnil] at h2
      simp at h2
  · rintro ⟨a, b, hab, ha, hb, hua, hdb⟩
    obtain ⟨c, rest, rfl⟩ : ∃ c rest, b = c :: rest := by
      cases b with
      | nil => exact absurd rfl hb
      | cons c rest => exact ⟨c, rest, rfl⟩
    have hcu : isUpperAZ c = false := digit_not_upper c (hdb c (List.mem_cons_self c rest))
    have htka : a.takeWhile isUpperAZ = a :=
      List.takeWhile_eq_self_iff.mpr fun x hx => hua x hx
    have hdpa : a.dropWhile isUpperAZ = [] :=
      List.dropWhile_eq_nil_iff.mpr fun x hx => hua x hx
    have hta : s.data.takeWhile isUpperAZ = a := by
      rw [hab, List.takeWhile_append, htka, if_pos rfl,
        List.takeWhile_cons_of_neg (by rw [hcu]; exact Bool.false_ne_true),
        List.append_nil]
    have htb : s.data.dropWhile isUpperAZ = c :: rest := by
      rw [hab, List.dropWhile_append, hdpa,
        if_pos (show List.isEmpty ([] : List Char) = true from rfl)]
      exact List.dropWhile_cons_of_neg (by rw [hcu]; exact Bool.false_ne_true)
    rw [hta, htb]
    refine ⟨⟨?_, rfl⟩, List.all_eq_true.mpr hdb⟩
    cases a with
    | nil => exact absurd rfl ha
    | cons x xs => rfl

/-- Counterexample to C8 as stated: the cell c49 matches the claimed
[A-Za-z]+[0-9]+ pattern but the source regex [A-Z]+[0-9]+ rejects it. -/
theorem part_number_lowercase_counterexample :
    partNumMatch "c49" = false ∧ matchesAlphaNum "c49" := by
  refine ⟨by decide, ['c'], ['4', '9'], by decide, by decide, by decide, by decide, by decide⟩

/-! Characterizations of one resolver step. -/

lemma resolveStepOk_elig_found (reg : Registry) (st : RState) (r : Rec) (l : String)
    (e : Entry) (hl : st.layer = some l)
    (he : r.layer = l ∧ startsWithDNP r.name = false)
    (hlook : reg.lookup r.name = some e) :
    resolveStepOk reg st r =
      RState.mk (some l)
        (st.parts ++ [RPart.mk r.num r.name r.pos (r.orient + e.rot) (regIdx reg r.name)])
        st.missing := by
  simp only [resolveStepOk, hl, Option.getD_some]
  rw [if_pos he, hlook]

lemma resolveStepOk_missing_new (reg : Registry) (st : RState) (r : Rec) (l : String)
    (hl : st.layer = some l)
    (he : r.layer = l ∧ startsWithDNP r.name = false)
    (hlook : reg.lookup r.name = none) (hmem : r.name ∉ st.missing) :
    resolveStepOk reg st r = RState.mk (some l) st.parts (st.missing ++ [r.name]) := by
  simp only [resolveStepOk, hl, Option.getD_some]
  rw [if_pos he, hlook]
  show (if r.name ∈ st.missing then _ else _) = _
  rw [if_neg hmem]

lemma resolveStepOk_missing_old (reg : Registry) (st : RState) (r : Rec) (l : String)
    (hl : st.layer = some l)
    (he : r.layer = l ∧ startsWithDNP r.name = false)
    (hlook : reg.lookup r.name = none) (hmem : r.name ∈ st.missing) :
    resolveStepOk reg st r = RState.mk (some l) st.parts st.missing := by
  simp only [resolveStepOk, hl, Option.getD_some]
  rw [if_pos he, hlook]
  show (if r.name ∈ st.missing then _ else _) = _
  rw [if_pos hmem]

lemma resolveStepOk_inelig (reg : Registry) (st : RState) (r : Rec) (l : String)
    (hl : st.layer = some l)
    (he : ¬(r.layer = l ∧ startsWithDNP r.name = false)) :
    resolveStepOk reg st r = RState.mk (some l) st.parts st.missing := by
  simp only [resolveStepOk, hl, Option.getD_some]
  rw [if_neg he]

lemma resolveStepOk_parts (reg : Registry) (st : RState) (r : Rec) :
    (resolveStepOk reg st r).parts = st.parts ∨
    ∃ e, reg.lookup r.name = some e ∧
      (resolveStepOk reg st r).parts =
        st.parts ++ [RPart.mk r.num r.name r.pos (r.orient + e.rot) (regIdx reg r.name)] := by
  simp only [resolveStepOk]
  split
  · split
    · rename_i e heq
      exact Or.inr ⟨e, heq, rfl⟩
    · split
      · exact Or.inl rfl
      · exact Or.inl rfl
  · exact Or.inl rfl

lemma resolveList_idx_inv (reg : Registry) (recs : List Rec) (st0 st : RState)
    (h : resolveList reg recs st0 = Except.ok st)
    (h0 : ∀ q ∈ st0.parts, q.idx = regIdx reg q.name) :
    ∀ q ∈ st.parts, q.idx = regIdx reg q.name := by
  induction recs generalizing st0 with
  | nil =>
    simp only [resolveList] at h
    rw [Except.ok.injEq] at h
    subst h
    exact h0
  | cons r rs ih =>
    simp only [resolveList] at h
    cases hstep : resolveStep reg st0 r with
    | error e =>
      rw [hstep] at h
      exact absurd h (by simp)
    | ok st1 =>
      rw [hstep] at h
      unfold resolveStep at hstep
      split at hstep
      case isTrue =>
        rw [Except.ok.injEq] at hstep
        subst hstep
        apply ih _ h
        rcases resolveStepOk_parts reg st0 r with hpeq | ⟨e, _, hpeq⟩
        · rw [hpeq]
          exact h0
        · rw [hpeq]
          intro q hq
          rcases List.mem_append.mp hq with hq0 | hq1
          · exact h0 q hq0
          · rw [List.mem_singleton.mp hq1]
      case isFalse => exact absurd hstep (by simp)

/-- Claim C6: for every input-row ordering, the resolved list after the
final sort is ordered by the registry insertion index — it is sorted
ascending on idx, it is a permutation of the resolved rows, and every
resolved row's idx is its part name's registry insertion position. -/
theorem resolved_emission_order (reg : Registry) (recs : List Rec)
    (lay0 : Option String) (st : RState)
    (h : resolveList reg recs (RState.mk lay0 [] []) = Except.ok st) :
    List.Sorted (fun a b : RPart => a.idx ≤ b.idx) (sortResolved st.parts) ∧
    (sortResolved st.parts).Perm st.parts ∧
    ∀ q ∈ st.parts, q.idx = regIdx reg q.name := by
  refine ⟨?_, List.mergeSort_perm st.parts _, resolveList_idx_inv reg recs _ st h ?_⟩
  · have htrans : ∀ a b c : RPart, (decide (a.idx ≤ b.idx)) = true →
        (decide (b.idx ≤ c.idx)) = true → (decide (a.idx ≤ c.idx)) = true := by
      intro a b c hab hbc
      rw [decide_eq_true_eq] at hab hbc ⊢
      omega
    have htot : ∀ a b : RPart, ((decide (a.idx ≤ b.idx)) || (decide (b.idx ≤ a.idx))) = true := by
      intro a b
      rw [Bool.or_eq_true, decide_eq_true_eq, decide_eq_true_eq]
      omega
    exact (List.sorted_mergeSort htrans htot st.parts).imp fun hab => of_decide_eq_true hab
  · intro q hq
    exact absurd hq (List.not_mem_nil q)

/-- Witness for C6: two rows arriving in input order A, B against a
registry inserted in order B, A resolve to indices 1, 0 and the sort
brings B first, matching registry order rather than input order. -/
theorem resolved_emission_order_witness :
    List.Sorted (fun a b : RPart => a.idx ≤ b.idx)
      (sortResolved [RPart.mk "R1" "A" (1, 1) (0 + 0) 1, RPart.mk "R2" "B" (2, 2) (0 + 0) 0]) ∧
    (sortResolved [RPart.mk "R1" "A" (1, 1) (0 + 0) 1, RPart.mk "R2" "B" (2, 2) (0 + 0) 0]).Perm
      [RPart.mk "R1" "A" (1, 1) (0 + 0) 1, RPart.mk "R2" "B" (2, 2) (0 + 0) 0] ∧
    ∀ q ∈ [RPart.mk "R1" "A" (1, 1) (0 + 0) 1, RPart.mk "R2" "B" (2, 2) (0 + 0) 0],
      q.idx = regIdx [("B", Entry.mk (some 2) 4 1 0), ("A", Entry.mk (some 1) 4 1 0)] q.name :=
  resolved_emission_order
    [("B", Entry.mk (some 2) 4 1 0), ("A", Entry.mk (some 1) 4 1 0)]
    [Rec.mk "R1" "A" (1, 1) 0 "top", Rec.mk "R2" "B" (2, 2) 0 "top"]
    none
    (RState.mk (some "top")
      [RPart.mk "R1" "A" (1, 1) (0 + 0) 1, RPart.mk "R2" "B" (2, 2) (0 + 0) 0] [])
    (by rfl)

lemma count_append_self (m : List String) (p : String) :
    (m ++ [p]).count p = m.count p + 1 := by
  simp [List.count_append]

lemma count_append_ne (m : List String) (p q : String) (h : q ≠ p) :
    (m ++ [q]).count p = m.count p := by
  simp [List.count_append, List.count_singleton, h]

set_option maxHeartbeats 1600000 in
/-- Invariant of the resolver loop for a part name p absent from the
registry: no resolved row is ever added for p, p enters the missing list
exactly when some row reaches the lookup for it, and the missing list
counts p exactly once more than the initial state did in that case. -/
lemma resolveList_missing_aux (reg : Registry) (p l : String)
    (hp : reg.lookup p = none) (recs : List Rec) (st0 st : RState)
    (hl : st0.layer = some l)
    (h : resolveList reg recs st0 = Except.ok st) :
    (∀ q ∈ st.parts, q ∈ st0.parts ∨ q.name ≠ p) ∧
    (p ∈ st.missing ↔ (p ∈ st0.missing ∨ ∃ r ∈ recs, eligRow p l r)) ∧
    st.missing.count p = st0.missing.count p +
      (if p ∉ st0.missing ∧ ∃ r ∈ recs, eligRow p l r then 1 else 0) := by
  induction recs generalizing st0 with
  | nil =>
    simp only [resolveList] at h
    rw [Except.ok.injEq] at h
    subst h
    refine ⟨fun q hq => Or.inl hq, by simp, by simp⟩
  | cons r rs ih =>
    simp only [resolveList] at h
    cases hstep : resolveStep reg st0 r with
    | error e =>
      rw [hstep] at h
      exact absurd h (by simp)
    | ok st1 =>
      rw [hstep] at h
      unfold resolveStep at hstep
      split at hstep
      case isFalse => exact absurd hstep (by simp)
      case isTrue hlay =>
        rw [Except.ok.injEq] at hstep
        subst hstep
        simp only [List.exists_mem_cons_iff]
        by_cases he : r.layer = l ∧ startsWithDNP r.name = false
        · by_cases hnp : r.name = p
          · subst hnp
            have hlook : reg.lookup r.name = none := hp
            have helig : eligRow r.name l r := ⟨rfl, he.1, he.2⟩
            by_cases hmem : r.name ∈ st0.missing
            · rw [resolveStepOk_missing_old reg st0 r l hl he hlook hmem] at h
              obtain ⟨ih1, ih2, ih3⟩ := ih (RState.mk (some l) st0.parts st0.missing) rfl h
              dsimp only at ih1 ih2 ih3
              refine ⟨ih1, ?_, ?_⟩
              · rw [ih2]
                tauto
              · rw [ih3, if_neg (by tauto), if_neg (by tauto)]
            · rw [resolveStepOk_missing_new reg st0 r l hl he hlook hmem] at h
              obtain ⟨ih1, ih2, ih3⟩ :=
                ih (RState.mk (some l) st0.parts (st0.missing ++ [r.name])) rfl h
              dsimp only at ih1 ih2 ih3
              have hmem1 : r.name ∈ st0.missing ++ [r.name] :=
                List.mem_append.mpr (Or.inr (List.mem_singleton.mpr rfl))
              refine ⟨ih1, ?_, ?_⟩
              · rw [ih2]
                tauto
              · rw [ih3, if_neg (by tauto), if_pos ⟨hmem, Or.inl helig⟩,
                  count_append_self]
          · have hnelig : ¬ eligRow p l r := fun hcon => hnp hcon.1
            cases hlook : reg.lookup r.name with
            | some e =>
              rw [resolveStepOk_elig_found reg st0 r l e hl he hlook] at h
              obtain ⟨ih1, ih2, ih3⟩ :=
                ih (RState.mk (some l)
                  (st0.parts ++
                    [RPart.mk r.num r.name r.pos (r.orient + e.rot) (regIdx reg r.name)])
                  st0.missing) rfl h
              dsimp only at ih1 ih2 ih3
              refine ⟨?_, ?_, ?_⟩
              · intro q hq
                rcases ih1 q hq with hq1 | hq1
                · rcases List.mem_append.mp hq1 with hq2 | hq2
                  · exact Or.inl hq2
                  · right
                    rw [List.mem_singleton.mp hq2]
                    exact hnp
                · exact Or.inr hq1
              · rw [ih2]
                tauto
              · rw [ih3]
                by_cases hE : ∃ x ∈ rs, eligRow p l x <;>
                  by_cases hN : p ∈ st0.missing <;> simp [hE, hN, hnelig]
            | none =>
              by_cases hmem : r.name ∈ st0.missing
              · rw [resolveStepOk_missing_old reg st0 r l hl he hlook hmem] at h
                obtain ⟨ih1, ih2, ih3⟩ := ih (RState.mk (some l) st0.parts st0.missing) rfl h
                dsimp only at ih1 ih2 ih3
                refine ⟨ih1, ?_, ?_⟩
                · rw [ih2]
                  tauto
                · rw [ih3]
                  by_cases hE : ∃ x ∈ rs, eligRow p l x <;>
                    by_cases hN : p ∈ st0.missing <;> simp [hE, hN, hnelig]
              · rw [resolveStepOk_missing_new reg st0 r l hl he hlook hmem] at h
                obtain ⟨ih1, ih2, ih3⟩ :=
                  ih (RState.mk (some l) st0.parts (st0.missing ++ [r.name])) rfl h
                dsimp only at ih1 ih2 ih3
                have hpm : (p ∈ st0.missing ++ [r.name]) ↔ p ∈ st0.missing := by
                  rw [List.mem_append, List.mem_singleton]
                  constructor
                  · rintro (h1 | h1)
                    · exact h1
                    · exact absurd h1.symm hnp
                  · exact Or.inl
                have hcnt : (st0.missing ++ [r.name]).count p = st0.missing.count p :=
                  count_append_ne st0.missing p r.name hnp
                simp only [hcnt, hpm] at ih3
                refine ⟨ih1, ?_, ?_⟩
                · rw [ih2, hpm]
                  tauto
                · rw [ih3]
                  by_cases hE : ∃ x ∈ rs, eligRow p l x <;>
                    by_cases hN : p ∈ st0.missing <;> simp [hE, hN, hnelig]
        · have hnelig : ¬ eligRow p l r := fun hcon => he ⟨hcon.2.1, hcon.2.2⟩
          rw [resolveStepOk_inelig reg st0 r l hl he] at h
          obtain ⟨ih1, ih2, ih3⟩ := ih (RState.mk (some l) st0.parts st0.missing) rfl h
          dsimp only at ih1 ih2 ih3
          refine ⟨ih1, ?_, ?_⟩
          · rw [ih2]
            tauto
          · rw [ih3]
            by_cases hE : ∃ x ∈ rs, eligRow p l x <;>
              by_cases hN : p ∈ st0.missing <;> simp [hE, hN, hnelig]

/-- Claim C7: a part name absent from the registry is not an error: the
run continues, no row for it reaches the resolved list, and the missing
list — one warning is printed per append — receives it exactly once when
at least one row of the active layer references it (and is not
do-not-place), no matter how many rows do. -/
theorem missing_part_warned_once (reg : Registry) (recs : List Rec) (l : String)
    (st : RState) (p : String)
    (hp : reg.lookup p = none)
    (h : resolveList reg recs (RState.mk (some l) [] []) = Except.ok st) :
    (∀ q ∈ st.parts, q.name ≠ p) ∧
    st.missing.count p = (if ∃ r ∈ recs, eligRow p l r then 1 else 0) := by
  obtain ⟨h1, h2, h3⟩ :=
    resolveList_missing_aux reg p l hp recs (RState.mk (some l) [] []) st rfl h
  dsimp only at h1 h3
  refine ⟨fun q hq => (h1 q hq).resolve_left fun hq0 => absurd hq0 (List.not_mem_nil q), ?_⟩
  rw [h3]
  simp

/-- Witness for C7: two rows referencing the unregistered part Y yield a
single occurrence of Y in the missing list and no resolved row. -/
theorem missing_part_warned_once_witness :
    (∀ q ∈ (RState.mk (some "top") ([] : List RPart) ["Y"]).parts, q.name ≠ "Y") ∧
    (RState.mk (some "top") ([] : List RPart) ["Y"]).missing.count "Y" =
      (if ∃ r ∈ [Rec.mk "R1" "Y" (1, 1) 0 "top", Rec.mk "R2" "Y" (2, 2) 0 "top"],
          eligRow "Y" "top" r then 1 else 0) :=
  missing_part_warned_once [("X", Entry.mk (some 1) 4 1 0)]
    [Rec.mk "R1" "Y" (1, 1) 0 "top", Rec.mk "R2" "Y" (2, 2) 0 "top"] "top"
    (RState.mk (some "top") [] ["Y"]) "Y" (by rfl) (by rfl)

end PnP
